import Mathlib

/-!
Verification development for the `getoutreach/migrate` multi-statement
migration parser (`database/multistmt/parse.go`) and the postgres driver
surface exercised by `database/postgresconn/postgresconn_test.go`.

Bytes are modelled as `Nat` (the Go code only compares bytes for equality
against ASCII constants, so no modular arithmetic arises).  A statement is a
`List Nat` of bytes.  The parser state mirrors the local variables of
`Parse`: `discard` (line-comment mode), `fnbody` (inside a `$$ ... $$`
function body), `accum` (the statement accumulation buffer) and `stmts`
(the completed statements).  Reading is modelled chunk by chunk, including
the one-byte cross-chunk carry buffer `tmp` and the zero-filled tail of a
short read, exactly as the Go loop behaves.
-/

namespace Multistmt

/-- Parser state: the local variables of `Parse` that survive one loop
iteration (the carry buffer `tmp` is threaded separately). -/
structure ParseState where
  discard : Bool
  fnbody : Bool
  accum : List Nat
  stmts : List (List Nat)
deriving Repr, DecidableEq

/-- Initial parser state of `Parse`. -/
def initState : ParseState := ⟨false, false, [], []⟩

/-- Bytes of the placeholder token `"<SCHEMA_NAME>"`. -/
def schemaToken : List Nat := [60, 83, 67, 72, 69, 77, 65, 95, 78, 65, 77, 69, 62]

/-- `startsWith l p` is true when `p` is an initial segment of `l`
(the prefix test used by `strings.ReplaceAll`). -/
def startsWith : List Nat → List Nat → Bool
  | _, [] => true
  | [], _ :: _ => false
  | c :: cs, p :: ps => c == p && startsWith cs ps

/-- Model of Go `strings.ReplaceAll pat -> repl` on byte lists: scan left to
right, replacing non-overlapping occurrences of a non-empty `pat`. -/
def replaceAll (pat repl : List Nat) : List Nat → List Nat
  | [] => []
  | c :: rest =>
    if startsWith (c :: rest) pat && decide (0 < pat.length) then
      repl ++ replaceAll pat repl (rest.drop (pat.length - 1))
    else
      c :: replaceAll pat repl rest
termination_by l => l.length
decreasing_by
  · simp only [List.length_drop, List.length_cons]
    omega
  · simp

/-- The substitution `Parse` applies to each completed statement: when the
replacement string is non-empty, replace every `"<SCHEMA_NAME>"`. -/
def replaceSchema (repl c : List Nat) : List Nat :=
  if repl = [] then c else replaceAll schemaToken repl c

/-- One step of the inner byte loop of `Parse`: process byte `ch` whose
lookahead byte (`buf[i+1]`) is `la`.  Mirrors the comment detection followed
by the `switch` on `ch` ( `36 = '$'`, `59 = ';'`, `10 = '\n'`, `45 = '-'`,
`47 = '/'` ). -/
def step (repl : List Nat) (s : ParseState) (ch la : Nat) : ParseState :=
  let discard :=
    if !s.fnbody && ((ch == 45 && la == 45) || (ch == 47 && la == 47)) then
      true
    else s.discard
  if ch == 36 then
    { s with
      discard := discard,
      fnbody := if la == 36 then !s.fnbody else s.fnbody,
      accum := if discard then s.accum else s.accum ++ [ch] }
  else if ch == 59 then
    if s.fnbody then
      { s with discard := discard, accum := s.accum ++ [ch] }
    else if discard then
      { s with discard := discard }
    else
      { s with
        discard := discard,
        accum := [],
        stmts := s.stmts ++ [replaceSchema repl (s.accum ++ [ch])] }
  else if ch == 10 then
    { s with
      discard := false,
      accum := if s.fnbody then s.accum ++ [ch] else s.accum }
  else
    { s with
      discard := discard,
      accum := if discard then s.accum else s.accum ++ [ch] }

/-- Process every byte of a list; the lookahead of the final byte is `0`
(the zero-filled tail of a short read into a larger buffer). -/
def runList (repl : List Nat) : ParseState → List Nat → ParseState
  | s, [] => s
  | s, c :: rest => runList repl (step repl s c (rest.headD 0)) rest

/-- Process a buffer whose length equals the byte count `n`: every byte but
the last is processed with its true lookahead, and the final byte is carried
into `tmp` (the `i+1 >= len(buf)` branch of the Go loop). -/
def runCarry (repl : List Nat) : ParseState → List Nat → ParseState × List Nat
  | s, [] => (s, [])
  | s, [c] => (s, [c])
  | s, c :: d :: rest => runCarry repl (step repl s c d) (d :: rest)

/-- One iteration of the read loop on a successful read of `chunk` bytes:
with an empty carry a full read (`n = ParseBufSize`) carries its final byte,
a short read is processed completely against the zero-filled buffer tail;
with a non-empty carry the carried byte is prepended and `len(buf) = n`,
so the final byte is carried again. -/
def chunkIter (repl : List Nat) (bufSize : Nat) (st : ParseState × List Nat)
    (chunk : List Nat) : ParseState × List Nat :=
  if st.2 = [] then
    if chunk.length = bufSize then runCarry repl st.1 chunk
    else (runList repl st.1 chunk, [])
  else runCarry repl st.1 (st.2 ++ chunk)

/-- A result of one `reader.Read` call: data bytes, end of stream, or a
non-EOF failure (error values are modelled as `Nat` codes). -/
inductive ReadRes where
  | data (bs : List Nat)
  | eof
  | fail (e : Nat)
deriving Repr, DecidableEq

/-- The read loop of `Parse`: fold successful reads with `chunkIter`, stop
at EOF (keeping the parsed state) or at a failure (returning its error).
The iteration performed on a 0-byte read only re-carries `tmp`, leaving the
parser state unchanged, so it needs no step here. -/
def readLoop (repl : List Nat) (bufSize : Nat) :
    ParseState × List Nat → List ReadRes → ParseState × Option Nat
  | (s, _), [] => (s, none)
  | (s, tmp), ReadRes.data bs :: rest =>
      readLoop repl bufSize (chunkIter repl bufSize (s, tmp) bs) rest
  | (s, _), ReadRes.eof :: _ => (s, none)
  | (s, _), ReadRes.fail e :: _ => (s, some e)

/-- Deliver completed statements to the handler in order; stop at the first
handler failure, returning the offending statement with the error.  The
returned list is exactly the statements the handler was invoked on. -/
def deliver (h : List Nat → Option Nat) :
    List (List Nat) → List (List Nat) × Option (List Nat × Nat)
  | [] => ([], none)
  | st :: rest =>
    match h st with
    | some e => ([st], some (st, e))
    | none =>
      let p := deliver h rest
      (st :: p.1, p.2)

/-- The error returned by `Parse`: a read error propagated unmodified, or a
handler error wrapped (`errors.Wrapf`) with the offending statement text. -/
inductive ParseErr where
  | readErr (e : Nat)
  | handlerErr (stmt : List Nat) (e : Nat)
deriving Repr, DecidableEq

/-- Model of `Parse`: run the read loop; a read failure is returned as-is
with no statement delivered; otherwise deliver the completed statements to
the handler. Returns the list of statements actually handed to the handler
together with the error result. -/
def ParseModel (bufSize : Nat) (reader : List ReadRes) (repl : List Nat)
    (h : List Nat → Option Nat) : List (List Nat) × Option ParseErr :=
  match readLoop repl bufSize (initState, []) reader with
  | (_, some e) => ([], some (ParseErr.readErr e))
  | (s, none) =>
    let p := deliver h s.stmts
    (p.1, p.2.map fun q => ParseErr.handlerErr q.1 q.2)

/-- ASCII bytes of a string (all example inputs are ASCII). -/
def strBytes (s : String) : List Nat := s.toList.map Char.toNat

/-- `hasPair x l` is true when `l` contains two adjacent occurrences of the
byte `x` (used to say a text has no `--` / `//` / `$$` marker). -/
def hasPair (x : Nat) : List Nat → Bool
  | a :: b :: rest => (a == x && b == x) || hasPair x (b :: rest)
  | _ => false

/-- Split a byte list at every `';'` (59): the fragments between semicolons,
in order; the final fragment is the tail after the last `';'`. -/
def splitOnSemi : List Nat → List (List Nat)
  | [] => [[]]
  | c :: rest =>
    if c = 59 then [] :: splitOnSemi rest
    else
      match splitOnSemi rest with
      | [] => [[c]]
      | fr :: fs => (c :: fr) :: fs

/-- ASCII whitespace test used by trimming. -/
def isSpaceB (c : Nat) : Bool := c == 32 || c == 9 || c == 10 || c == 13

/-- Trim leading and trailing whitespace from a byte list. -/
def trimBytes (l : List Nat) : List Nat :=
  ((l.dropWhile isSpaceB).reverse.dropWhile isSpaceB).reverse

/-- The naive split the claim describes (spec side of the refinement claim):
split the text on `';'`, trim each fragment, and remove a trailing empty
fragment. -/
def naiveSplitTrim (text : List Nat) : List (List Nat) :=
  let fs := (splitOnSemi text).map trimBytes
  if fs.getLast? = some [] then fs.dropLast else fs

/-- Remove newline bytes from a byte list (the parser drops `'\n'` outside
function bodies). -/
def dropNl (l : List Nat) : List Nat := l.filter (fun c => !(c == 10))

/-- The statements `Parse` emits from marker-free text starting with partial
accumulation `A`: each `';'` closes `A ++ ";"`, newlines are skipped, other
bytes accumulate. -/
def emitFrags (A : List Nat) : List Nat → List (List Nat)
  | [] => []
  | c :: rest =>
    if c = 59 then (A ++ [59]) :: emitFrags [] rest
    else if c = 10 then emitFrags A rest
    else emitFrags (A ++ [c]) rest

/-- The accumulation buffer left after processing marker-free text. -/
def lastFrag (A : List Nat) : List Nat → List Nat
  | [] => A
  | c :: rest =>
    if c = 59 then lastFrag [] rest
    else if c = 10 then lastFrag A rest
    else lastFrag (A ++ [c]) rest

/-- `emitFrags` expressed over the fragments of `splitOnSemi`: all fragments
but the last, each with newlines removed and `';'` re-appended, the first one
prefixed with the pending accumulation. -/
def mapFrags (A : List Nat) : List (List Nat) → List (List Nat)
  | [] => []
  | [_] => []
  | fr :: fr2 :: fs => (A ++ dropNl fr ++ [59]) :: mapFrags [] (fr2 :: fs)

end Multistmt

namespace PostgresConn

/-- Modelled from the spec: the position mapper `computeLineFromPos` of the
postgres driver (its body is not under `src/`, only its test is): iterate by
code point with a 1-based position counter, the current line and the counter
value where that line began; carriage returns are invisible to the counter
and the column math; a line feed increments the line and the next position
starts the line; when the counter reaches `pos` return the 1-based
`(line, column)` with `ok = true`; return `ok = false` when the counter
never reaches `pos`. -/
def clfpGo (pos : Int) : List Char → Nat → Nat → Nat → Nat × Nat × Bool
  | [], _, _, _ => (0, 0, false)
  | c :: rest, p, line, lineStart =>
    if c = '\r' then clfpGo pos rest p line lineStart
    else if (p : Int) = pos then (line, p - lineStart + 1, true)
    else if c = '\n' then clfpGo pos rest (p + 1) (line + 1) (p + 1)
    else clfpGo pos rest (p + 1) line lineStart

/-- Modelled from the spec: `computeLineFromPos(text, pos)` entry point with
counters starting at 1. -/
def computeLineFromPos (text : List Char) (pos : Int) : Nat × Nat × Bool :=
  clfpGo pos text 1 1 1

/-- Code-point count of the logical text: carriage returns are zero-width. -/
def logicalLength (text : List Char) : Nat :=
  (text.filter (fun c => !(c == '\r'))).length

/-- Modelled from the spec: the visible database state of one schema — the
created tables (by numeric id) and the single version-table row. -/
structure DBState where
  tables : List Nat
  version : Option (Int × Bool)
deriving Repr, DecidableEq

/-- Modelled from the spec: a driver connection — the committed state plus
the state of the open transaction, when one is open. -/
structure Conn where
  committed : DBState
  tx : Option DBState
deriving Repr, DecidableEq

/-- Modelled from the spec: `Begin()` opens a transaction on the current
committed state. -/
def connBegin (c : Conn) : Conn := { c with tx := some c.committed }

/-- Modelled from the spec: `SetVersion(v, dirty)` replaces the single
version-table row; it requires an open transaction, where the write is
visible to later statements of the same run. -/
def setVersion (c : Conn) (v : Int) (dirty : Bool) : Option Conn :=
  match c.tx with
  | some db => some { c with tx := some { db with version := some (v, dirty) } }
  | none => none

/-- Modelled from the spec: `Run` of a DDL statement creating table `tbl`
inside the open transaction. -/
def runDDL (c : Conn) (tbl : Nat) : Option Conn :=
  match c.tx with
  | some db => some { c with tx := some { db with tables := db.tables ++ [tbl] } }
  | none => none

/-- Modelled from the spec: `Rollback` discards the open transaction,
returning state to as-if `Begin` never ran. -/
def rollback (c : Conn) : Conn := { c with tx := none }

/-- Modelled from the spec: what a query on the connection observes — the
open transaction's state when one is open, else the committed state. -/
def observable (c : Conn) : DBState := c.tx.getD c.committed

end PostgresConn

namespace Multistmt

example : (runList [] initState (strBytes "a;b;")).stmts =
    [strBytes "a;", strBytes "b;"] := by decide

example : (runList [] initState (strBytes "a--c\nb;")).stmts =
    [strBytes "ab;"] := by decide

example : chunkIter [] 2 (initState, []) (strBytes "a;") =
    (step [] initState 97 59, [59]) := by decide

/-- Inside a function body (and not discarding) any byte other than `'$'` is
appended verbatim and changes nothing else. -/
theorem step_fnbody_verbatim (repl : List Nat) (d f : Bool) (A : List Nat)
    (S : List (List Nat)) (ch la : Nat)
    (hf : f = true) (hd : d = false) (hc : ch ≠ 36) :
    step repl ⟨d, f, A, S⟩ ch la = ⟨d, f, A ++ [ch], S⟩ := by
  subst hf
  subst hd
  by_cases h59 : ch = 59
  · subst h59; simp [step]
  · by_cases h10 : ch = 10
    · subst h10; simp [step]
    · simp [step, h59, h10, hc]

/-- One parser step either leaves the completed statements unchanged or
appends the single statement `accum ++ ";"` (after substitution). -/
theorem step_stmts_cases (repl : List Nat) (d f : Bool) (A : List Nat)
    (S : List (List Nat)) (ch la : Nat) :
    (step repl ⟨d, f, A, S⟩ ch la).stmts = S ∨
    (step repl ⟨d, f, A, S⟩ ch la).stmts = S ++ [replaceSchema repl (A ++ [59])] := by
  by_cases h36 : ch = 36
  · left; subst h36; simp [step]
  · by_cases h59 : ch = 59
    · subst h59
      cases f
      · cases d
        · right; simp [step]
        · left; simp [step]
      · left; simp [step]
    · left
      by_cases h10 : ch = 10
      · subst h10; simp [step]
      · simp [step, h36, h59, h10]

/-- Every statement present after running the parser was either already
present or was emitted as a `';'`-terminated accumulation: the accumulation
buffer itself never reaches the output except through a `';'` emission. -/
theorem runList_stmts_mem (repl : List Nat) :
    ∀ (text : List Nat) (s : ParseState) (st : List Nat),
      st ∈ (runList repl s text).stmts →
      st ∈ s.stmts ∨ ∃ pre, st = replaceSchema repl (pre ++ [59]) := by
  intro text
  induction text with
  | nil =>
    intro s st h
    exact Or.inl (by simpa [runList] using h)
  | cons c rest ih =>
    intro s st h
    rw [runList] at h
    rcases ih _ st h with h' | h'
    · obtain ⟨d, f, A, S⟩ := s
      rcases step_stmts_cases repl d f A S c (rest.headD 0) with he | he
      · rw [he] at h'
        exact Or.inl h'
      · rw [he] at h'
        rcases List.mem_append.1 h' with h2 | h2
        · exact Or.inl h2
        · exact Or.inr ⟨A, by simpa using h2⟩
    · exact Or.inr h'

/-- Delivery is an in-order prefix: all statements on success, and on a
handler failure the failing statement is the last one delivered. -/
theorem deliver_spec (h : List Nat → Option Nat) :
    ∀ l : List (List Nat),
      (∃ r, (deliver h l).1 ++ r = l) ∧
      ((deliver h l).2 = none → (deliver h l).1 = l) ∧
      (∀ st e, (deliver h l).2 = some (st, e) →
        h st = some e ∧ (deliver h l).1 ≠ [] ∧ (deliver h l).1.getLast? = some st) := by
  intro l
  induction l with
  | nil =>
    refine ⟨⟨[], rfl⟩, fun _ => rfl, ?_⟩
    intro st e hc
    simp [deliver] at hc
  | cons a rest ih =>
    cases hha : h a with
    | some e' =>
      refine ⟨⟨rest, by simp [deliver, hha]⟩, ?_, ?_⟩
      · intro hc; simp [deliver, hha] at hc
      · intro st e hc
        simp only [deliver, hha] at hc
        obtain ⟨h1, h2⟩ := Prod.mk.injEq .. ▸ Option.some.injEq .. ▸ hc
        · exact ⟨by rw [← h1, hha, h2], by simp [deliver, hha], by simp [deliver, hha, ← h1]⟩
    | none =>
      obtain ⟨⟨r, hr⟩, hnone, hsome⟩ := ih
      refine ⟨⟨r, by simp only [deliver, hha]; simpa using hr⟩, ?_, ?_⟩
      · intro hc
        simp only [deliver, hha] at hc ⊢
        rw [hnone hc]
      · intro st e hc
        simp only [deliver, hha] at hc ⊢
        obtain ⟨q1, q2, q3⟩ := hsome st e hc
        refine ⟨q1, by simp, ?_⟩
        cases hp : (deliver h rest).1 with
        | nil => exact absurd hp q2
        | cons b bs => rw [hp] at q3; simpa [List.getLast?_cons_cons] using q3

/-- A handler that never fails receives every completed statement. -/
theorem deliver_none_all (l : List (List Nat)) :
    deliver (fun _ => none) l = (l, none) := by
  induction l with
  | nil => rfl
  | cons a rest ih => simp [deliver, ih]

/-- After any run of successful data reads, a failing read makes the read
loop stop with exactly that error. -/
theorem readLoop_data_fail (repl : List Nat) (bufSize : Nat) :
    ∀ (pre : List ReadRes) (st : ParseState × List Nat) (e : Nat)
      (rest : List ReadRes),
      (∀ r ∈ pre, ∃ bs, r = ReadRes.data bs) →
      ∃ s', readLoop repl bufSize st (pre ++ ReadRes.fail e :: rest) = (s', some e) := by
  intro pre
  induction pre with
  | nil =>
    intro st e rest _
    obtain ⟨s, tmp⟩ := st
    exact ⟨s, rfl⟩
  | cons r pre ih =>
    intro st e rest hall
    obtain ⟨bs, hbs⟩ := hall r (by simp)
    subst hbs
    obtain ⟨s, tmp⟩ := st
    simpa [readLoop] using
      ih (chunkIter repl bufSize (s, tmp) bs) e rest (fun r hr => hall r (by simp [hr]))

/-- C1: the claim says the statement list is invariant under the read-chunk
size and the partitioning of the bytes across `Read` calls.  The code
violates this: (a) with `ParseBufSize = 2` a full read of `"a;"` carries the
final `';'` into `tmp` at the buffer boundary and re-carries it forever at
EOF, so no statement is emitted, while `ParseBufSize = 4` emits `"a;"`;
(b) with the same `ParseBufSize = 1024`, delivering `"a--b;\nc;"` in one
read recognises the `--` comment, while splitting it as `"a-" / "-b;\nc;"`
defeats the two-byte lookahead (the short read leaves a zero lookahead
byte), so the comment is not recognised and different statements emerge. -/
theorem C1_chunking_changes_output :
    (ParseModel 2 [ReadRes.data (strBytes "a;"), ReadRes.eof] []
        (fun _ => none) = ([], none)) ∧
    (ParseModel 4 [ReadRes.data (strBytes "a;"), ReadRes.eof] []
        (fun _ => none) = ([strBytes "a;"], none)) ∧
    (ParseModel 1024 [ReadRes.data (strBytes "a--b;\nc;"), ReadRes.eof] []
        (fun _ => none) = ([strBytes "ac;"], none)) ∧
    (ParseModel 1024 [ReadRes.data (strBytes "a-"), ReadRes.data (strBytes "-b;\nc;"),
        ReadRes.eof] [] (fun _ => none)
      = ([strBytes "a--b;", strBytes "c;"], none)) := by
  refine ⟨by decide, by decide, by decide, by decide⟩

/-- C2: while `inFunctionBody` is true (and the parser is not discarding),
every byte of a `'$'`-free segment — in particular every `';'` — is copied
verbatim into the accumulating statement and never terminates it; and a
dollar-quoted body with internal `';'` passes through `Parse` as one single
statement. -/
theorem C2_fnbody_semicolon_verbatim :
    (∀ (repl seg : List Nat) (s : ParseState),
        s.fnbody = true → s.discard = false → (∀ c ∈ seg, c ≠ 36) →
        runList repl s seg = { s with accum := s.accum ++ seg }) ∧
    (runList [] initState (strBytes "AS $$ a; b; $$;")).stmts
      = [strBytes "AS $$ a; b; $$;"] := by
  constructor
  · intro repl seg
    induction seg with
    | nil =>
      intro s hf hd _
      simp [runList]
    | cons c rest ih =>
      intro s hf hd hseg
      rw [runList]
      have hstep : step repl s c (rest.headD 0) = { s with accum := s.accum ++ [c] } := by
        obtain ⟨d, f, A, S⟩ := s
        exact step_fnbody_verbatim repl d f A S c _ (by simpa using hf)
          (by simpa using hd) (hseg c (by simp))
      rw [hstep]
      rw [ih { s with accum := s.accum ++ [c] } (by simpa using hf) (by simpa using hd)
        (fun x hx => hseg x (by simp [hx]))]
      simp
  · decide

/-- Witness for C2 at a concrete state: inside a function body the bytes
`";b"` are appended verbatim with no statement emitted. -/
theorem C2_fnbody_semicolon_verbatim_witness :
    runList [] ⟨false, true, [97], [[100]]⟩ [59, 98]
      = ⟨false, true, [97, 59, 98], [[100]]⟩ :=
  C2_fnbody_semicolon_verbatim.1 [] [59, 98] ⟨false, true, [97], [[100]]⟩
    rfl rfl (by decide)

/-- C6: an unterminated trailing fragment is dropped at end of stream: every
statement the parser ever outputs was emitted as a `';'`-terminated
accumulation (the final accumulation buffer never reaches the output), and
concretely the trailing `"bcd"` of `"a;bcd"` is neither emitted nor
delivered to the handler. -/
theorem C6_trailing_fragment_dropped :
    (∀ (repl : List Nat) (text : List Nat) (s : ParseState) (st : List Nat),
        st ∈ (runList repl s text).stmts →
        st ∈ s.stmts ∨ ∃ pre, st = replaceSchema repl (pre ++ [59])) ∧
    (ParseModel 1024 [ReadRes.data (strBytes "a;bcd"), ReadRes.eof] []
        (fun _ => none) = ([strBytes "a;"], none)) := by
  exact ⟨fun repl text s st h => runList_stmts_mem repl text s st h, by decide⟩

/-- Witness for C6 at a concrete input: the single statement `"a;"` parsed
from `"a;bcd"` is a `';'`-terminated emission. -/
theorem C6_trailing_fragment_dropped_witness :
    strBytes "a;" ∈ ([] : List (List Nat)) ∨
    ∃ pre, strBytes "a;" = replaceSchema [] (pre ++ [59]) :=
  C6_trailing_fragment_dropped.1 [] (strBytes "a;bcd") initState (strBytes "a;")
    (by decide)

/-- C7: completed statements are delivered to the handler in splitter order
(the delivered list is a prefix of the statement list); when the handler
fails, delivery stops at the offending statement — it is the last one
delivered — and `Parse` returns the failure wrapped with that statement's
text. -/
theorem C7_handler_order_and_failure :
    (∀ (h : List Nat → Option Nat) (l : List (List Nat)),
        (∃ r, (deliver h l).1 ++ r = l) ∧
        ((deliver h l).2 = none → (deliver h l).1 = l) ∧
        (∀ st e, (deliver h l).2 = some (st, e) →
          h st = some e ∧ (deliver h l).1.getLast? = some st)) ∧
    (∀ (bufSize : Nat) (reader : List ReadRes) (repl : List Nat)
        (h : List Nat → Option Nat) (s : ParseState),
        readLoop repl bufSize (initState, []) reader = (s, none) →
        ParseModel bufSize reader repl h =
          ((deliver h s.stmts).1,
            ((deliver h s.stmts).2).map fun q => ParseErr.handlerErr q.1 q.2)) := by
  constructor
  · intro h l
    obtain ⟨p1, p2, p3⟩ := deliver_spec h l
    exact ⟨p1, p2, fun st e hc => ⟨(p3 st e hc).1, (p3 st e hc).2.2⟩⟩
  · intro bufSize reader repl h s hrl
    unfold ParseModel
    rw [hrl]

/-- Witness for C7: on the parsed statements of `"a;b;c;"` with a handler
failing on `"b;"`, `Parse` delivers `"a;", "b;"` and returns the failure
wrapped with `"b;"`. -/
theorem C7_handler_order_and_failure_witness :
    ParseModel 1024 [ReadRes.data (strBytes "a;b;c;"), ReadRes.eof] []
        (fun st => if st = strBytes "b;" then some 7 else none)
      = ([strBytes "a;", strBytes "b;"],
         some (ParseErr.handlerErr (strBytes "b;") 7)) := by
  rw [C7_handler_order_and_failure.2 1024
    [ReadRes.data (strBytes "a;b;c;"), ReadRes.eof] []
    (fun st => if st = strBytes "b;" then some 7 else none)
    ⟨false, false, [], [strBytes "a;", strBytes "b;", strBytes "c;"]⟩ (by decide)]
  decide

/-- C8: a non-EOF read failure aborts `Parse` at once: whatever successful
reads preceded it, the returned error is exactly the reader's error, with
no wrapping and nothing delivered to the handler. -/
theorem C8_read_error_unwrapped (bufSize : Nat) (repl : List Nat)
    (h : List Nat → Option Nat) (pre rest : List ReadRes) (e : Nat)
    (hpre : ∀ r ∈ pre, ∃ bs, r = ReadRes.data bs) :
    ParseModel bufSize (pre ++ ReadRes.fail e :: rest) repl h
      = ([], some (ParseErr.readErr e)) := by
  obtain ⟨s', hs'⟩ := readLoop_data_fail repl bufSize pre (initState, []) e rest hpre
  unfold ParseModel
  rw [hs']

/-- Witness for C8: a read failure with code 5 after the bytes `"a;"` is
returned as exactly that error, with nothing delivered. -/
theorem C8_read_error_unwrapped_witness :
    ParseModel 1024 [ReadRes.data (strBytes "a;"), ReadRes.fail 5] []
        (fun _ => none)
      = ([], some (ParseErr.readErr 5)) :=
  C8_read_error_unwrapped 1024 [] (fun _ => none) [ReadRes.data (strBytes "a;")]
    [] 5 (by simp)

/-- C10: `Parse` buffers all completed statements and only delivers them
after the read loop finishes: on a read failure the handler is invoked zero
times even for statements that were fully parsed before the failing read
(concretely, `"a;b;"` parses to two statements, yet a subsequent failing
read yields an empty delivery), while at EOF a never-failing handler
receives exactly the full parsed statement list. -/
theorem C10_buffered_delivery :
    (∀ (bufSize : Nat) (repl : List Nat) (h : List Nat → Option Nat)
        (pre rest : List ReadRes) (e : Nat),
        (∀ r ∈ pre, ∃ bs, r = ReadRes.data bs) →
        (ParseModel bufSize (pre ++ ReadRes.fail e :: rest) repl h).1 = []) ∧
    ((readLoop [] 1024 (initState, []) [ReadRes.data (strBytes "a;b;")]).1.stmts
      = [strBytes "a;", strBytes "b;"]) ∧
    (ParseModel 1024 [ReadRes.data (strBytes "a;b;"), ReadRes.fail 5] []
        (fun _ => none) = ([], some (ParseErr.readErr 5))) ∧
    (∀ (bufSize : Nat) (reader : List ReadRes) (repl : List Nat) (s : ParseState),
        readLoop repl bufSize (initState, []) reader = (s, none) →
        (ParseModel bufSize reader repl (fun _ => none)).1 = s.stmts) := by
  refine ⟨?_, by decide, by decide, ?_⟩
  · intro bufSize repl h pre rest e hpre
    obtain ⟨s', hs'⟩ := readLoop_data_fail repl bufSize pre (initState, []) e rest hpre
    unfold ParseModel
    rw [hs']
  · intro bufSize reader repl s hrl
    unfold ParseModel
    rw [hrl]
    simp [deliver_none_all]

/-- Witness for C10: with the statements of `"a;b;"` parsed and a read
failure following, zero statements are delivered; at EOF both are. -/
theorem C10_buffered_delivery_witness :
    (ParseModel 8 [ReadRes.data (strBytes "a;b;"), ReadRes.fail 9] []
        (fun _ => none)).1 = [] ∧
    (ParseModel 8 [ReadRes.data (strBytes "a;b;"), ReadRes.eof] []
        (fun _ => none)).1
      = (⟨false, false, [], [strBytes "a;", strBytes "b;"]⟩ : ParseState).stmts :=
  ⟨C10_buffered_delivery.1 8 [] (fun _ => none) [ReadRes.data (strBytes "a;b;")]
      [] 9 (by simp),
   C10_buffered_delivery.2.2.2 8 [ReadRes.data (strBytes "a;b;"), ReadRes.eof] []
      ⟨false, false, [], [strBytes "a;", strBytes "b;"]⟩ (by decide)⟩

/-- In line-comment mode outside a function body, a byte that is neither a
newline nor a `'$'` adjacent to another `'$'` leaves the parser state
completely unchanged. -/
theorem step_discard_inert (repl A : List Nat) (S : List (List Nat)) (ch la : Nat)
    (h10 : ch ≠ 10) (hdl : ch = 36 → la ≠ 36) :
    step repl ⟨true, false, A, S⟩ ch la = ⟨true, false, A, S⟩ := by
  by_cases h36 : ch = 36
  · subst h36
    simp [step, hdl rfl]
  · by_cases h59 : ch = 59
    · subst h59; simp [step]
    · simp [step, h36, h59, h10]

/-- C3 (counterexample to the claim as stated): in the input `"a--$$;\nb$$;"`
the bytes `$ $ ;` at indices 3–5 are read in line-comment mode (the `--` at
indices 1–2 fired outside a function body and the terminating newline is at
index 6), yet the `$$` inside the comment toggles `fnbody`, so the comment's
`';'` is appended and appears — together with the newline — inside the one
emitted statement `"a;\nb$$;"`. -/
theorem C3_comment_leak_counterexample :
    (runList [] initState (strBytes "a--$$;\nb$$;")).stmts
      = [[97, 59, 10, 98, 36, 36, 59]] := by decide

/-- C3 as amended: provided the comment contains no `$$` pair, bytes read in
line-comment mode contribute nothing — the parser state is unchanged until
the newline, the newline itself only clears `discard`, and a `';'` on a
later line still terminates a statement (concretely `"a;--c\nb;"` yields
exactly `"a;"` and `"b;"`). -/
theorem C3_comment_discard_no_content :
    (∀ (repl seg A : List Nat) (S : List (List Nat)),
        (10 ∉ seg) → hasPair 36 seg = false →
        runList repl ⟨true, false, A, S⟩ seg = ⟨true, false, A, S⟩) ∧
    (∀ (repl : List Nat) (s : ParseState) (la : Nat), s.fnbody = false →
        step repl s 10 la = { s with discard := false }) ∧
    ((runList [] initState (strBytes "a;--c\nb;")).stmts
      = [strBytes "a;", strBytes "b;"]) := by
  refine ⟨?_, ?_, by decide⟩
  · intro repl seg
    induction seg with
    | nil => intro A S _ _; rfl
    | cons c rest ih =>
      intro A S h10 hpair
      have hc10 : c ≠ 10 := fun hc => h10 (by simp [hc])
      have hdl : c = 36 → rest.headD 0 ≠ 36 := by
        intro hc
        subst hc
        cases rest with
        | nil => decide
        | cons d rest' =>
          intro hd
          simp only [List.headD_cons] at hd
          subst hd
          simp [hasPair] at hpair
      have hpair' : hasPair 36 rest = false := by
        cases rest with
        | nil => rfl
        | cons d rest' =>
          have h := hpair
          simp only [hasPair, Bool.or_eq_false_iff] at h
          exact h.2
      rw [runList, step_discard_inert repl A S c (rest.headD 0) hc10 hdl]
      exact ih A S (fun hx => h10 (by simp [hx])) hpair'
  · intro repl s la hf
    obtain ⟨d, f, A, S⟩ := s
    simp only at hf
    subst hf
    simp [step]

/-- Witness for C3 (amended): the comment body `" c$"` read in discard mode
from a concrete state changes nothing, and a newline clears `discard`. -/
theorem C3_comment_discard_no_content_witness :
    (runList [] ⟨true, false, [97], [[98]]⟩ [32, 99, 36]
      = ⟨true, false, [97], [[98]]⟩) ∧
    (step [] ⟨true, false, [97], [[98]]⟩ 10 0
      = { (⟨true, false, [97], [[98]]⟩ : ParseState) with discard := false }) :=
  ⟨C3_comment_discard_no_content.1 [] [32, 99, 36] [97] [[98]] (by decide) (by decide),
   C3_comment_discard_no_content.2.1 [] ⟨true, false, [97], [[98]]⟩ 0 rfl⟩

/-- `hasPair` on a tail. -/
theorem hasPair_tail {x c : Nat} {rest : List Nat}
    (h : hasPair x (c :: rest) = false) : hasPair x rest = false := by
  cases rest with
  | nil => rfl
  | cons d r =>
    simp only [hasPair, Bool.or_eq_false_iff] at h
    exact h.2

/-- When a list has no adjacent pair of `x` and its head is `x`, the next
byte (the lookahead, `0` past the end) is not `x`. -/
theorem hasPair_headD {x c : Nat} {rest : List Nat} (hx : x ≠ 0)
    (h : hasPair x (c :: rest) = false) (hc : c = x) : rest.headD 0 ≠ x := by
  cases rest with
  | nil =>
    simp only [List.headD_nil]
    exact fun he => hx he.symm
  | cons d r =>
    simp only [List.headD_cons]
    intro hd
    subst hc
    subst hd
    simp [hasPair] at h

/-- A `';'` outside comments and function bodies emits the accumulated
statement (with substitution applied) and clears the buffer. -/
theorem step_semi (repl A : List Nat) (S : List (List Nat)) (la : Nat) :
    step repl ⟨false, false, A, S⟩ 59 la
      = ⟨false, false, [], S ++ [replaceSchema repl (A ++ [59])]⟩ := by
  simp [step]

/-- A newline outside comments and function bodies is skipped. -/
theorem step_nl (repl A : List Nat) (S : List (List Nat)) (la : Nat) :
    step repl ⟨false, false, A, S⟩ 10 la = ⟨false, false, A, S⟩ := by
  simp [step]

/-- Any other byte, with a lookahead that completes no `--`, `//` or `$$`
marker, is appended verbatim. -/
theorem step_plain (repl A : List Nat) (S : List (List Nat)) (ch la : Nat)
    (h36 : ch = 36 → la ≠ 36) (h45 : ch = 45 → la ≠ 45)
    (h47 : ch = 47 → la ≠ 47) (h59 : ch ≠ 59) (h10 : ch ≠ 10) :
    step repl ⟨false, false, A, S⟩ ch la = ⟨false, false, A ++ [ch], S⟩ := by
  by_cases e36 : ch = 36
  · subst e36
    simp [step, h36 rfl]
  · by_cases e45 : ch = 45
    · subst e45
      simp [step, h45 rfl, e36]
    · by_cases e47 : ch = 47
      · subst e47
        simp [step, h47 rfl, e36, e45]
      · simp [step, e36, e45, e47, h59, h10]

/-- On marker-free text the parser from a clean mode simply accumulates and
emits at each `';'`: the final state is described by `lastFrag`/`emitFrags`. -/
theorem runList_no_markers :
    ∀ (text A : List Nat) (S : List (List Nat)),
      hasPair 45 text = false → hasPair 47 text = false →
      hasPair 36 text = false →
      runList [] ⟨false, false, A, S⟩ text
        = ⟨false, false, lastFrag A text, S ++ emitFrags A text⟩ := by
  intro text
  induction text with
  | nil =>
    intro A S _ _ _
    simp [runList, lastFrag, emitFrags]
  | cons c rest ih =>
    intro A S h45 h47 h36
    have t45 := hasPair_tail h45
    have t47 := hasPair_tail h47
    have t36 := hasPair_tail h36
    by_cases hc59 : c = 59
    · subst hc59
      rw [runList, step_semi, ih [] (S ++ [replaceSchema [] (A ++ [59])]) t45 t47 t36]
      simp [emitFrags, lastFrag, replaceSchema, List.append_assoc]
    · by_cases hc10 : c = 10
      · subst hc10
        rw [runList, step_nl, ih A S t45 t47 t36]
        simp [emitFrags, lastFrag]
      · have la36 : c = 36 → rest.headD 0 ≠ 36 := fun hc => hasPair_headD (by decide) h36 hc
        have la45 : c = 45 → rest.headD 0 ≠ 45 := fun hc => hasPair_headD (by decide) h45 hc
        have la47 : c = 47 → rest.headD 0 ≠ 47 := fun hc => hasPair_headD (by decide) h47 hc
        rw [runList, step_plain [] A S c (rest.headD 0) la36 la45 la47 hc59 hc10,
          ih (A ++ [c]) S t45 t47 t36]
        simp [emitFrags, lastFrag, hc59, hc10]

/-- `splitOnSemi` always yields at least one fragment. -/
theorem splitOnSemi_ne_nil (l : List Nat) : splitOnSemi l ≠ [] := by
  cases l with
  | nil => simp [splitOnSemi]
  | cons c rest =>
    by_cases hc : c = 59
    · simp [splitOnSemi, hc]
    · simp only [splitOnSemi, hc, if_false]
      cases h : splitOnSemi rest <;> simp

/-- The statements emitted from marker-free text are the `splitOnSemi`
fragments, mapped. -/
theorem emitFrags_eq_mapFrags :
    ∀ (text A : List Nat), emitFrags A text = mapFrags A (splitOnSemi text) := by
  intro text
  induction text with
  | nil => intro A; rfl
  | cons c rest ih =>
    intro A
    obtain ⟨fr, fs, hsp⟩ : ∃ fr fs, splitOnSemi rest = fr :: fs := by
      cases h : splitOnSemi rest with
      | nil => exact absurd h (splitOnSemi_ne_nil rest)
      | cons fr fs => exact ⟨fr, fs, rfl⟩
    by_cases hc : c = 59
    · subst hc
      rw [show splitOnSemi (59 :: rest) = [] :: splitOnSemi rest from by
            simp [splitOnSemi],
          hsp,
          show emitFrags A (59 :: rest) = (A ++ [59]) :: emitFrags [] rest from by
            simp [emitFrags],
          ih [], hsp]
      simp [mapFrags, dropNl]
    · have hsp' : splitOnSemi (c :: rest) = (c :: fr) :: fs := by
        simp [splitOnSemi, hc, hsp]
      by_cases hc10 : c = 10
      · subst hc10
        rw [show emitFrags A (10 :: rest) = emitFrags A rest from by simp [emitFrags],
          ih A, hsp, hsp']
        cases fs with
        | nil => rfl
        | cons f2 fs' => simp [mapFrags, dropNl]
      · rw [show emitFrags A (c :: rest) = emitFrags (A ++ [c]) rest from by
            simp [emitFrags, hc, hc10],
          ih (A ++ [c]), hsp, hsp']
        cases fs with
        | nil => rfl
        | cons f2 fs' => simp [mapFrags, dropNl, hc10, List.append_assoc]

/-- `mapFrags` from an empty accumulation drops the last fragment and maps
the rest. -/
theorem mapFrags_dropLast :
    ∀ l : List (List Nat),
      mapFrags [] l = l.dropLast.map (fun fr => dropNl fr ++ [59]) := by
  intro l
  induction l with
  | nil => rfl
  | cons fr fs ih =>
    cases fs with
    | nil => rfl
    | cons f2 fs' =>
      simp only [mapFrags, List.dropLast_cons₂, List.map_cons] at ih ⊢
      rw [ih]
      simp

/-- C5 (counterexample to the claim as stated): on the marker-free text
`"a b;"` the parser emits `"a b;"` — keeping interior whitespace and the
terminating `';'` — while the naive split-and-trim of the claim yields
`"a b"`. -/
theorem C5_naive_split_counterexample :
    (runList [] initState (strBytes "a b;")).stmts = [strBytes "a b;"] ∧
    naiveSplitTrim (strBytes "a b;") = [strBytes "a b"] ∧
    ([strBytes "a b;"] : List (List Nat)) ≠ [strBytes "a b"] := by
  refine ⟨by decide, by decide, by decide⟩

/-- C5 as amended: for text with no `--`, `//` or `$$` marker, delivered in
one read smaller than the buffer, `Parse` emits exactly the `';'`-split
fragments minus the trailing (unterminated) fragment, each kept verbatim
except that newline bytes are dropped, with its terminating `';'`
re-appended — not whitespace-trimmed. -/
theorem C5_no_marker_split (bufSize : Nat) (text : List Nat)
    (hlen : text.length < bufSize)
    (h45 : hasPair 45 text = false) (h47 : hasPair 47 text = false)
    (h36 : hasPair 36 text = false) :
    (readLoop [] bufSize (initState, []) [ReadRes.data text]).1.stmts
      = ((splitOnSemi text).dropLast).map (fun fr => dropNl fr ++ [59]) := by
  have hne : text.length ≠ bufSize := Nat.ne_of_lt hlen
  have hch : chunkIter [] bufSize (initState, []) text
      = (runList [] initState text, []) := by
    unfold chunkIter
    rw [if_pos rfl, if_neg hne]
  have h1 : readLoop [] bufSize (initState, []) [ReadRes.data text]
      = (runList [] initState text, none) := by
    show readLoop [] bufSize (chunkIter [] bufSize (initState, []) text) [] = _
    rw [hch]
    rfl
  rw [h1]
  show (runList [] ⟨false, false, [], []⟩ text).stmts = _
  rw [runList_no_markers text [] [] h45 h47 h36]
  show [] ++ emitFrags [] text = _
  rw [emitFrags_eq_mapFrags text [], mapFrags_dropLast]
  simp

/-- Witness for C5 (amended) at `"a\nb; c;d"`: the parser emits
`"ab;"` and `" c;"` — fragments with newlines dropped and `';'` kept, the
trailing `"d"` dropped. -/
theorem C5_no_marker_split_witness :
    (readLoop [] 16 (initState, []) [ReadRes.data (strBytes "a\nb; c;d")]).1.stmts
      = ((splitOnSemi (strBytes "a\nb; c;d")).dropLast).map
          (fun fr => dropNl fr ++ [59]) :=
  C5_no_marker_split 16 (strBytes "a\nb; c;d") (by decide) (by decide)
    (by decide) (by decide)

end Multistmt

namespace PostgresConn

/-- A carriage return is zero-width for the logical length. -/
theorem logicalLength_cons_cr (rest : List Char) :
    logicalLength ('\r' :: rest) = logicalLength rest := by
  simp [logicalLength, List.filter_cons]

/-- Any other character counts one code point. -/
theorem logicalLength_cons_ne (c : Char) (rest : List Char) (hc : c ≠ '\r') :
    logicalLength (c :: rest) = logicalLength rest + 1 := by
  simp [logicalLength, List.filter_cons, hc]

/-- The scan succeeds exactly when `pos` lies in the window of positions the
remaining text still covers. -/
theorem clfpGo_ok_iff (pos : Int) :
    ∀ (text : List Char) (p line ls : Nat),
      ((clfpGo pos text p line ls).2.2 = true) ↔
        ((p : Int) ≤ pos ∧ pos < (p : Int) + logicalLength text) := by
  intro text
  induction text with
  | nil =>
    intro p line ls
    simp [clfpGo, logicalLength]
  | cons c rest ih =>
    intro p line ls
    by_cases hr : c = '\r'
    · subst hr
      rw [show clfpGo pos ('\r' :: rest) p line ls = clfpGo pos rest p line ls from by
          simp [clfpGo]]
      rw [ih p line ls, logicalLength_cons_cr]
    · by_cases hp : (p : Int) = pos
      · rw [show clfpGo pos (c :: rest) p line ls = (line, p - ls + 1, true) from by
          simp [clfpGo, hr, hp]]
        rw [logicalLength_cons_ne c rest hr]
        push_cast
        simp only [show (true = true) = True from by simp, true_iff]
        omega
      · by_cases hn : c = '\n'
        · subst hn
          rw [show clfpGo pos ('\n' :: rest) p line ls
              = clfpGo pos rest (p + 1) (line + 1) (p + 1) from by simp [clfpGo, hp]]
          rw [ih (p + 1) (line + 1) (p + 1), logicalLength_cons_ne _ rest (by decide)]
          push_cast
          omega
        · rw [show clfpGo pos (c :: rest) p line ls
              = clfpGo pos rest (p + 1) line ls from by simp [clfpGo, hr, hp, hn]]
          rw [ih (p + 1) line ls, logicalLength_cons_ne c rest hr]
          push_cast
          omega

/-- C4: `computeLineFromPos(text, pos)` returns `ok = true` exactly when
`1 ≤ pos ≤` the code-point count of the logical text (carriage returns
zero-width); on `"SELECT *\nFROM foo"` (17 code points) position 15 maps to
line 2, column 6, and position 18 fails. -/
theorem C4_mapPosition_ok_iff :
    (∀ (text : List Char) (pos : Int),
        (computeLineFromPos text pos).2.2 = true ↔
          1 ≤ pos ∧ pos ≤ (logicalLength text : Int)) ∧
    (computeLineFromPos ("SELECT *\nFROM foo".toList) 15 = (2, 6, true)) ∧
    (logicalLength ("SELECT *\nFROM foo".toList) = 17) ∧
    (computeLineFromPos ("SELECT *\nFROM foo".toList) 18 = (0, 0, false)) := by
  refine ⟨?_, by decide, by decide, by decide⟩
  intro text pos
  unfold computeLineFromPos
  rw [clfpGo_ok_iff pos text 1 1 1]
  push_cast
  omega

/-- C9: `Begin → SetVersion(1,false) → Run(DDL) → Rollback` on a connection
with no open transaction: the `SetVersion` write and the created table are
observable inside the transaction, and after `Rollback` the connection is
exactly as if `Begin` never ran — neither the version row nor the table is
observable. -/
theorem C9_begin_setversion_run_rollback (c : Conn) (tbl : Nat)
    (hc : c.tx = none) (htbl : tbl ∉ c.committed.tables) :
    ∃ c2 c3,
      setVersion (connBegin c) 1 false = some c2 ∧
      (observable c2).version = some (1, false) ∧
      runDDL c2 tbl = some c3 ∧
      tbl ∈ (observable c3).tables ∧
      rollback c3 = c ∧
      (observable (rollback c3)).version = c.committed.version ∧
      tbl ∉ (observable (rollback c3)).tables := by
  obtain ⟨comm, tx⟩ := c
  simp only at hc htbl
  subst hc
  refine ⟨_, _, rfl, rfl, rfl, ?_, rfl, rfl, ?_⟩
  · simp [observable, connBegin, setVersion, runDDL]
  · simpa [observable, rollback] using htbl

/-- Witness for C9 starting from the empty committed state with table id 0. -/
theorem C9_begin_setversion_run_rollback_witness :
    ∃ c2 c3,
      setVersion (connBegin ⟨⟨[], none⟩, none⟩) 1 false = some c2 ∧
      (observable c2).version = some (1, false) ∧
      runDDL c2 0 = some c3 ∧
      0 ∈ (observable c3).tables ∧
      rollback c3 = (⟨⟨[], none⟩, none⟩ : Conn) ∧
      (observable (rollback c3)).version
        = (⟨⟨[], none⟩, none⟩ : Conn).committed.version ∧
      0 ∉ (observable (rollback c3)).tables :=
  C9_begin_setversion_run_rollback ⟨⟨[], none⟩, none⟩ 0 rfl (by simp)

end PostgresConn
